import Mathlib

/-!
Verification of the aliyun-tablestore-go-sdk client (`tablestore/api.go`)
against its natural-language specification.

The development shallowly embeds the retrying RPC transport
(`TableStoreClient.doRequest`), the per-operation wrappers that the claims
reference (`CreateTable`, `ListTable`, `DeleteTable`, `PutRow`, `GetRow`,
`GetRange`), and a model of the row binary codec described by the spec.
Stateful control flow (the goto-based retry loop) becomes explicit
recursion over the attempt counter; the external HTTP layer (`postReq`)
and the protobuf unmarshaller become an oracle classifying each attempt's
outcome, exactly by the branches `doRequest` distinguishes.
-/

namespace Tablestore

/-! ## Retrying transport (`doRequest`, api.go lines 66-157)

`postReq` returns `(body, err)`.  `doRequest` branches on: whether `err`
is non-nil, whether `body` is empty, whether `proto.Unmarshal(body, e)`
succeeds on a failure body, and — on the success path — whether
`proto.Unmarshal(body, resp)` succeeds.  One attempt's outcome is
therefore one of the following constructors. -/

/-- The outcome of one HTTP attempt (`postReq` plus the unmarshal calls
made on its body), as classified by the branches of `doRequest`. -/
inductive Attempt where
  /-- `err == nil`, `len(body) == 0`: success with no payload. -/
  | successEmpty : Attempt
  /-- `err == nil`, non-empty body; `respDecodes` tells whether
  `proto.Unmarshal(body, resp)` succeeds. -/
  | successBody (respDecodes : Bool) : Attempt
  /-- `err != nil`, `len(body) == 0`: transport-level failure. -/
  | failEmpty : Attempt
  /-- `err != nil`, non-empty body that `proto.Unmarshal` cannot decode
  as a `tsprotocol.Error`; `detail` stands for the formatted
  `"%s: %s: %s"` detail text built from `errn`, `err` and the body. -/
  | failGarbage (detail : String) : Attempt
  /-- `err != nil`, non-empty body decoding to `tsprotocol.Error` with
  the given `Code` and `Message`. -/
  | failDecoded (code message : String) : Attempt
deriving DecidableEq, Repr

/-- The error value `doRequest` returns to its caller (nil is modelled as
`Option.none` at the call sites). -/
inductive ReqError where
  /-- Line 144: `return err` — the transport error itself. -/
  | transport : ReqError
  /-- Lines 128 and 153: `fmt.Errorf("decode resp failed: %s...", ...)`. -/
  | decodeResp (detail : String) : ReqError
  /-- Line 140: `fmt.Errorf("%s", *e.Code)` — the text is exactly the
  decoded error code. -/
  | server (text : String) : ReqError
deriving DecidableEq, Repr

/-- The user-visible text of a returned error (`err.Error()` in Go). -/
def reqErrorText : ReqError → String
  | .transport => "transport error"
  | .decodeResp detail => "decode resp failed: " ++ detail
  | .server text => text

/-- `true` when the first list is an initial segment of the second. -/
def charsStartWith : List Char → List Char → Bool
  | [], _ => true
  | _ :: _, [] => false
  | a :: as, b :: bs => a == b && charsStartWith as bs

/-- `true` when `needle` occurs contiguously somewhere in the second list. -/
def charsOccur (needle : List Char) : List Char → Bool
  | [] => charsStartWith needle []
  | b :: bs => charsStartWith needle (b :: bs) || charsOccur needle bs

/-- `true` on a needle that occurs as a contiguous substring of the hay. -/
def containsSubstr (needle hay : String) : Bool :=
  charsOccur needle.data hay.data

/-- Lines 130-133: the error codes `doRequest` treats as retryable. -/
def isTransientCode (code : String) : Bool :=
  code == "OTSServerBusy" || code == "OTSTimeout"

/-- What one `doRequest` call did: its returned error (`none` = nil),
how many HTTP attempts it issued, and how many fixed 10ms sleeps
(line 134) it performed. -/
structure CallTrace where
  result : Option ReqError
  attempts : Nat
  sleeps : Nat
deriving DecidableEq, Repr

/-- The retry loop of `doRequest` (lines 80-156), against a transport
oracle giving the outcome of each attempt by its index.  The Go loop
keeps a counter `count` starting at `0` and, on the two retryable
branches, increments it and jumps back to `retry` while
`count <= RetryTimes`; here the loop is phrased over the remaining
budget `RetryTimes - count`, so the Go retry condition
`count + 1 <= RetryTimes` is exactly `budget > 0`.  Branches:
on an undecodable failure body, retry without sleeping or, with the
budget spent, return the decode error (lines 123-128); on a decoded
transient code, sleep 10ms, then retry or, with the budget spent, fall
out of the switch and return the code (lines 130-140); on a decoded
non-transient code, return the code at once (line 140); on an empty
failure body, return the transport error (line 144); on success, return
nil, or the response-decode error when the body does not unmarshal
(lines 147-156). -/
def doRequestAux (transport : Nat → Attempt) : Nat → Nat → CallTrace
  | budget, idx =>
    match transport idx with
    | .successEmpty => ⟨none, 1, 0⟩
    | .successBody true => ⟨none, 1, 0⟩
    | .successBody false => ⟨some (.decodeResp "unmarshal resp"), 1, 0⟩
    | .failEmpty => ⟨some .transport, 1, 0⟩
    | .failGarbage detail =>
      match budget with
      | 0 => ⟨some (.decodeResp detail), 1, 0⟩
      | b + 1 =>
        let t := doRequestAux transport b (idx + 1)
        ⟨t.result, t.attempts + 1, t.sleeps⟩
    | .failDecoded code _message =>
      if isTransientCode code then
        match budget with
        | 0 => ⟨some (.server code), 1, 1⟩
        | b + 1 =>
          let t := doRequestAux transport b (idx + 1)
          ⟨t.result, t.attempts + 1, t.sleeps + 1⟩
      else ⟨some (.server code), 1, 0⟩

/-- One full `doRequest` call: the loop started with the whole retry
budget (`count = 0`) at attempt index `0`. -/
def doRequest (retryTimes : Nat) (transport : Nat → Attempt) : CallTrace :=
  doRequestAux transport retryTimes 0

/-! ## Operation wrappers

Each public operation builds a protobuf request, calls `doRequest`, and
maps the outcome.  The wrappers below embed the parts of that mapping the
claims are about; request assembly that merely copies fields into the
protobuf message is kept where a claim depends on it (branching,
validation, post-processing) and elided where no claim does.  Every
wrapper result records the number of HTTP attempts issued, so "no network
call was made" is the statement `attempts = 0`. -/

/-- Modelled from the spec: the validation error values
`errTableNameTooLong`, `errPrimaryKeyTooMuch`,
`errCreateTableNoPrimaryKey` and `errInvalidInput` are defined outside
the provided source file; the spec describes them as client-side
validation errors caught before any network call. -/
inductive ValidationError where
  | tableNameTooLong (name : String) : ValidationError
  | primaryKeyTooMuch : ValidationError
  | createTableNoPrimaryKey : ValidationError
  | invalidInput : ValidationError
deriving DecidableEq, Repr

/-- An error returned by a public operation: either a client-side
validation error or an error propagated from `doRequest`. -/
inductive OpError where
  | validation (e : ValidationError) : OpError
  | request (e : ReqError) : OpError
deriving DecidableEq, Repr

/-- What a public operation returned: the response pointer (`none` = nil),
the error (`none` = nil), and how many HTTP attempts were issued. -/
structure OpResult (ρ : Type) where
  resp : Option ρ
  err : Option OpError
  attempts : Nat
deriving DecidableEq, Repr

/-- One primary-key schema entry of a `TableMeta` (`Name`, `Type`,
optional `Option`; the integer-valued enums are embedded as `Int`). -/
structure PrimaryKeySchemaM where
  name : String
  type : Int
  option : Option Int
deriving DecidableEq, Repr

/-- `TableMeta`: the table name and its primary-key schema entries. -/
structure TableMetaM where
  tableName : String
  schemaEntry : List PrimaryKeySchemaM
deriving DecidableEq, Repr

/-- `CreateTableRequest`: the table meta plus the reserved-throughput and
table-option numbers that `CreateTable` copies into the protobuf. -/
structure CreateTableRequestM where
  tableMeta : TableMetaM
  readcap : Int
  writecap : Int
  timeToAlive : Int
  maxVersion : Int
deriving DecidableEq, Repr

/-- `CreateTable` (api.go lines 168-211): validates the table name length
(`len` in Go is the byte length) and the schema-entry count before any
request, then calls `doRequest` and propagates its error.
The maxima `maxTableNameLength` and `maxPrimaryKeyNum` are defined
outside the provided source file and are taken as parameters; the spec
describes them as fixed maxima enforced before any call. -/
def createTable (maxTableNameLength maxPrimaryKeyNum : Nat)
    (retryTimes : Nat) (transport : Nat → Attempt)
    (request : CreateTableRequestM) : OpResult Unit :=
  if request.tableMeta.tableName.utf8ByteSize > maxTableNameLength then
    ⟨none, some (.validation (.tableNameTooLong request.tableMeta.tableName)), 0⟩
  else if request.tableMeta.schemaEntry.length > maxPrimaryKeyNum then
    ⟨none, some (.validation .primaryKeyTooMuch), 0⟩
  else if request.tableMeta.schemaEntry.length == 0 then
    ⟨none, some (.validation .createTableNoPrimaryKey), 0⟩
  else
    let t := doRequest retryTimes transport
    match t.result with
    | some e => ⟨none, some (.request e), t.attempts⟩
    | none => ⟨some (), none, t.attempts⟩

/-- `ListTableResponse`: the returned table names. -/
structure ListTableResponseM where
  tableNames : List String
deriving DecidableEq, Repr

/-- `ListTable` (api.go lines 218-227).  `decodedNames` abstracts the
`TableNames` field the protobuf unmarshaller fills in on success.  On a
`doRequest` error the Go code executes
`return &ListTableResponse{}, nil` (line 222): a fresh empty response
and a nil error. -/
def listTable (retryTimes : Nat) (transport : Nat → Attempt)
    (decodedNames : List String) : OpResult ListTableResponseM :=
  let t := doRequest retryTimes transport
  match t.result with
  | some _ => ⟨some ⟨[]⟩, none, t.attempts⟩
  | none => ⟨some ⟨decodedNames⟩, none, t.attempts⟩

/-- `DeleteTable` (api.go lines 234-243): builds the request and
propagates any `doRequest` error. -/
def deleteTable (retryTimes : Nat) (transport : Nat → Attempt)
    (_tableName : String) : OpResult Unit :=
  let t := doRequest retryTimes transport
  match t.result with
  | some e => ⟨none, some (.request e), t.attempts⟩
  | none => ⟨some (), none, t.attempts⟩

/-- `PutRowChange`: only its presence and table name matter to the
claims; the row content and condition are assembled into the protobuf
unchanged. -/
structure PutRowChangeM where
  tableName : String
deriving DecidableEq, Repr

/-- `PutRowRequest`: holds the (possibly nil) `PutRowChange` pointer. -/
structure PutRowRequestM where
  putRowChange : Option PutRowChangeM
deriving DecidableEq, Repr

/-- `PutRow` (api.go lines 317-348): a nil request or a nil
`PutRowChange` returns `(nil, nil)` before any request (lines 318-324);
otherwise `doRequest` is called and its error propagated. -/
def putRow (retryTimes : Nat) (transport : Nat → Attempt)
    (request : Option PutRowRequestM) : OpResult Unit :=
  match request with
  | none => ⟨none, none, 0⟩
  | some r =>
    match r.putRowChange with
    | none => ⟨none, none, 0⟩
    | some _ =>
      let t := doRequest retryTimes transport
      match t.result with
      | some e => ⟨none, some (.request e), t.attempts⟩
      | none => ⟨some (), none, t.attempts⟩

/-- A time range as stored in the protobuf `GetRowRequest`. -/
structure TimeRangeM where
  startTime : Option Int
  endTime : Option Int
  specificTime : Option Int
deriving DecidableEq, Repr

/-- Modelled from the spec: `SingleRowQueryCriteria` is defined outside
the provided source file; it carries the table name, the columns to get,
`MaxVersion`, and whatever time-range setting the caller supplied. -/
structure SingleRowQueryCriteriaM where
  tableName : String
  columnsToGet : List String
  maxVersion : Int
  timeRange : Option TimeRangeM
deriving DecidableEq, Repr

/-- The protobuf `GetRowRequest` fields `GetRow` populates before the
version branch; a freshly allocated message has every pointer nil. -/
structure PBGetRowRequest where
  tableName : String
  columnsToGet : List String
  maxVersions : Option Int
  timeRange : Option TimeRangeM
deriving DecidableEq, Repr

/-- `GetRow` (api.go lines 375-426) up to and including the
version/time-range branch (lines 387-393).  The branch tests
`req.TimeRange` — a field of the just-allocated outgoing protobuf
request, never set before this point — not the criteria; so when
`MaxVersion == 0` the `else if` scrutinee is nil and `errInvalidInput`
is returned with no request issued.  On the success path the response
assembly (row-codec decode) is beyond the claims about this operation
and the response is collapsed to `()`. -/
def getRow (retryTimes : Nat) (transport : Nat → Attempt)
    (crit : SingleRowQueryCriteriaM) : OpResult Unit :=
  let req0 : PBGetRowRequest :=
    { tableName := crit.tableName, columnsToGet := [],
      maxVersions := none, timeRange := none }
  let req1 :=
    if crit.columnsToGet.length > 0 then
      { req0 with columnsToGet := crit.columnsToGet }
    else req0
  if crit.maxVersion ≠ 0 then
    let _req2 := { req1 with maxVersions := some crit.maxVersion }
    let t := doRequest retryTimes transport
    match t.result with
    | some e => ⟨none, some (.request e), t.attempts⟩
    | none => ⟨some (), none, t.attempts⟩
  else if req1.timeRange.isSome then
    let t := doRequest retryTimes transport
    match t.result with
    | some e => ⟨none, some (.request e), t.attempts⟩
    | none => ⟨some (), none, t.attempts⟩
  else
    ⟨none, some (.validation .invalidInput), 0⟩

/-! ## Row binary codec

Modelled from the spec: the row codec (`encodeRow` / `decodeRows`,
called `readRowsWithHeader` on the decode side by `api.go`) is
implemented outside the provided source file.  The model follows the
spec's layout exactly: a fixed 4-byte header marker per row; a
primary-key section of entries, each a type tag, a length-prefixed
name and a type-tagged length-prefixed value, terminated by a section
end marker; a data-cell section of entries, each a length-prefixed
name, a type-tagged value and an optional 8-byte timestamp, terminated
by a section end marker; and one trailing checksum byte per row,
computed by a running XOR accumulator over the row's section bytes.
Bytes are `Nat`s below 256; multi-byte integers are little-endian. -/

/-- A typed column value: 64-bit integer, 64-bit float (by its 8-byte
bit representation), boolean, byte-string, UTF-8 string (by its bytes),
or one of the key-only sentinels. -/
inductive CellValue where
  | vInt (n : Nat) : CellValue
  | vFloat (bits : Nat) : CellValue
  | vBool (b : Bool) : CellValue
  | vBytes (bs : List Nat) : CellValue
  | vStr (bs : List Nat) : CellValue
  | vInfMin : CellValue
  | vInfMax : CellValue
  | vAutoIncr : CellValue
deriving DecidableEq, Repr

/-- One primary-key column as the codec sees it: name bytes + value. -/
structure PKColumn where
  name : List Nat
  value : CellValue
deriving DecidableEq, Repr

/-- One data cell: name bytes, value, optional timestamp. -/
structure DataCell where
  name : List Nat
  value : CellValue
  timestamp : Option Nat
deriving DecidableEq, Repr

/-- A logical row: ordered primary-key columns plus ordered data cells. -/
structure Row where
  primaryKey : List PKColumn
  cells : List DataCell
deriving DecidableEq, Repr

/-- The fixed 4-byte header marker opening every encoded row. -/
def headerMarker : List Nat := [117, 0, 0, 0]

/-- The value type tag written on the wire for each `CellValue` shape. -/
def tagOfValue : CellValue → Nat
  | .vInt _ => 0
  | .vFloat _ => 1
  | .vBool _ => 2
  | .vBytes _ => 3
  | .vStr _ => 4
  | .vInfMin => 5
  | .vInfMax => 6
  | .vAutoIncr => 7

/-- End-of-section marker closing the primary-key section. -/
def pkSectionEnd : Nat := 10

/-- End-of-section marker closing the data-cell section. -/
def cellSectionEnd : Nat := 11

/-- Entry tag opening each data cell. -/
def cellEntryTag : Nat := 12

/-- 4-byte little-endian encoding of a length below `2 ^ 32`. -/
def enc32 (n : Nat) : List Nat :=
  [n % 256, n / 256 % 256, n / 65536 % 256, n / 16777216 % 256]

/-- The number read back from 4 little-endian bytes. -/
def dec32 (b0 b1 b2 b3 : Nat) : Nat :=
  b0 + 256 * b1 + 65536 * b2 + 16777216 * b3

/-- 8-byte little-endian encoding of a number below `2 ^ 64`. -/
def enc64 (n : Nat) : List Nat :=
  [n % 256, n / 256 % 256, n / 65536 % 256, n / 16777216 % 256,
   n / 4294967296 % 256, n / 1099511627776 % 256,
   n / 281474976710656 % 256, n / 72057594037927936 % 256]

/-- The number read back from 8 little-endian bytes. -/
def dec64 (b0 b1 b2 b3 b4 b5 b6 b7 : Nat) : Nat :=
  b0 + 256 * b1 + 65536 * b2 + 16777216 * b3 + 4294967296 * b4 +
    1099511627776 * b5 + 281474976710656 * b6 + 72057594037927936 * b7

/-- Length-prefixed byte string: 4-byte length, then the bytes. -/
def encLP (bs : List Nat) : List Nat := enc32 bs.length ++ bs

/-- The value bytes following a value's type tag. -/
def valuePayload : CellValue → List Nat
  | .vInt n => enc64 n
  | .vFloat bits => enc64 bits
  | .vBool b => [if b then 1 else 0]
  | .vBytes bs => encLP bs
  | .vStr bs => encLP bs
  | .vInfMin => []
  | .vInfMax => []
  | .vAutoIncr => []

/-- One encoded primary-key entry: type tag, length-prefixed name,
value payload. -/
def encPKColumn (c : PKColumn) : List Nat :=
  tagOfValue c.value :: (encLP c.name ++ valuePayload c.value)

/-- The encoded primary-key section, closed by its end marker. -/
def encPKSection (cols : List PKColumn) : List Nat :=
  (cols.map encPKColumn).flatten ++ [pkSectionEnd]

/-- The encoded optional timestamp: a presence byte, then 8 bytes. -/
def encTimestamp : Option Nat → List Nat
  | none => [0]
  | some ts => 1 :: enc64 ts

/-- One encoded data cell: entry tag, length-prefixed name, type-tagged
value, optional timestamp. -/
def encDataCell (c : DataCell) : List Nat :=
  cellEntryTag ::
    (encLP c.name ++ (tagOfValue c.value :: valuePayload c.value) ++
      encTimestamp c.timestamp)

/-- The encoded data-cell section, closed by its end marker. -/
def encCellSection (cs : List DataCell) : List Nat :=
  (cs.map encDataCell).flatten ++ [cellSectionEnd]

/-- The bytes of a row between the header marker and the checksum. -/
def rowBody (r : Row) : List Nat :=
  encPKSection r.primaryKey ++ encCellSection r.cells

/-- Running XOR accumulator over the row's section bytes. -/
def checksum (bs : List Nat) : Nat := bs.foldl (fun a b => a ^^^ b) 0

/-- `encodeRow`: header marker, both sections, checksum byte. -/
def encodeRow (r : Row) : List Nat :=
  headerMarker ++ rowBody r ++ [checksum (rowBody r)]

/-- Read a length-prefixed byte string; yields the payload, the consumed
bytes, and the remaining input.  Fails on a truncated buffer. -/
def readLP : List Nat → Option (List Nat × List Nat × List Nat)
  | l0 :: l1 :: l2 :: l3 :: rest =>
    let n := dec32 l0 l1 l2 l3
    if n ≤ rest.length then
      some (rest.take n, l0 :: l1 :: l2 :: l3 :: rest.take n, rest.drop n)
    else none
  | _ => none

/-- Read 8 little-endian bytes; yields the number, the consumed bytes,
and the remaining input. -/
def read8 : List Nat → Option (Nat × List Nat × List Nat)
  | b0 :: b1 :: b2 :: b3 :: b4 :: b5 :: b6 :: b7 :: rest =>
    some (dec64 b0 b1 b2 b3 b4 b5 b6 b7,
      [b0, b1, b2, b3, b4, b5, b6, b7], rest)
  | _ => none

/-- Read the value bytes dictated by a type tag.  Fails on an
unrecognized tag or a truncated buffer. -/
def readValuePayload (tag : Nat) (input : List Nat) :
    Option (CellValue × List Nat × List Nat) :=
  if tag = 0 then
    match read8 input with
    | some (n, c, r) => some (.vInt n, c, r)
    | none => none
  else if tag = 1 then
    match read8 input with
    | some (n, c, r) => some (.vFloat n, c, r)
    | none => none
  else if tag = 2 then
    match input with
    | b :: r => some (.vBool (b != 0), [b], r)
    | [] => none
  else if tag = 3 then
    match readLP input with
    | some (bs, c, r) => some (.vBytes bs, c, r)
    | none => none
  else if tag = 4 then
    match readLP input with
    | some (bs, c, r) => some (.vStr bs, c, r)
    | none => none
  else if tag = 5 then some (.vInfMin, [], input)
  else if tag = 6 then some (.vInfMax, [], input)
  else if tag = 7 then some (.vAutoIncr, [], input)
  else none

/-- Read primary-key entries up to and including the section end marker.
The fuel only bounds recursion; any fuel above the entry count acts the
same. -/
def readPKSection : Nat → List Nat → Option (List PKColumn × List Nat × List Nat)
  | _, [] => none
  | 0, _ :: _ => none
  | fuel + 1, t :: rest =>
    if t = pkSectionEnd then some ([], [t], rest)
    else
      match readLP rest with
      | none => none
      | some (name, cn, r1) =>
        match readValuePayload t r1 with
        | none => none
        | some (v, cv, r2) =>
          match readPKSection fuel r2 with
          | none => none
          | some (cols, cs, r3) =>
            some (⟨name, v⟩ :: cols, t :: (cn ++ cv ++ cs), r3)

/-- Read the optional timestamp: a presence byte, then 8 bytes. -/
def readTimestamp : List Nat → Option (Option Nat × List Nat × List Nat)
  | 0 :: rest => some (none, [0], rest)
  | 1 :: rest =>
    match read8 rest with
    | some (ts, c, r) => some (some ts, 1 :: c, r)
    | none => none
  | _ => none

/-- Read data-cell entries up to and including the section end marker. -/
def readCellSection : Nat → List Nat → Option (List DataCell × List Nat × List Nat)
  | _, [] => none
  | 0, _ :: _ => none
  | fuel + 1, t :: rest =>
    if t = cellSectionEnd then some ([], [t], rest)
    else if t = cellEntryTag then
      match readLP rest with
      | none => none
      | some (name, cn, r1) =>
        match r1 with
        | [] => none
        | vt :: r2 =>
          match readValuePayload vt r2 with
          | none => none
          | some (v, cv, r3) =>
            match readTimestamp r3 with
            | none => none
            | some (ts, ct, r4) =>
              match readCellSection fuel r4 with
              | none => none
              | some (cells, cs, r5) =>
                some (⟨name, v, ts⟩ :: cells,
                  t :: (cn ++ (vt :: cv) ++ ct ++ cs), r5)
    else none

/-- Read one encoded row: header marker, both sections, checksum byte
verified against the consumed section bytes.  Yields the row and the
remaining input. -/
def readRow (input : List Nat) : Option (Row × List Nat) :=
  match input with
  | h0 :: h1 :: h2 :: h3 :: rest =>
    if [h0, h1, h2, h3] = headerMarker then
      match readPKSection (rest.length + 1) rest with
      | none => none
      | some (cols, cpk, r1) =>
        match readCellSection (r1.length + 1) r1 with
        | none => none
        | some (cells, cc, r2) =>
          match r2 with
          | [] => none
          | cks :: r3 =>
            if cks = checksum (cpk ++ cc) then some (⟨cols, cells⟩, r3)
            else none
    else none
  | _ => none

/-- Decode rows from the buffer until it is exhausted; any undecodable
row aborts the whole decode. -/
def decodeRowsAux : Nat → List Nat → Option (List Row)
  | _, [] => some []
  | 0, _ :: _ => none
  | fuel + 1, input =>
    match readRow input with
    | none => none
    | some (r, rest) =>
      match decodeRowsAux fuel rest with
      | none => none
      | some rs => some (r :: rs)

/-- `decodeRows`: decode the concatenation of encoded rows, in order.
Each row consumes at least one byte, so the input length bounds the
row count and serves as fuel. -/
def decodeRows (bs : List Nat) : Option (List Row) :=
  decodeRowsAux bs.length bs

/-- A wire-representable byte string: its length fits the 4-byte length
prefix and its elements are bytes. -/
def validBlob (bs : List Nat) : Bool :=
  bs.length < 4294967296 && bs.all (fun b => b < 256)

/-- Values a primary-key column may carry: 64-bit integer, byte-string,
string, or a key-only sentinel. -/
def validPKValue : CellValue → Bool
  | .vInt n => n < 18446744073709551616
  | .vFloat _ => false
  | .vBool _ => false
  | .vBytes bs => validBlob bs
  | .vStr bs => validBlob bs
  | .vInfMin => true
  | .vInfMax => true
  | .vAutoIncr => true

/-- Values a data cell may carry: 64-bit integer, float, boolean,
byte-string, or string. -/
def validDataValue : CellValue → Bool
  | .vInt n => n < 18446744073709551616
  | .vFloat bits => bits < 18446744073709551616
  | .vBool _ => true
  | .vBytes bs => validBlob bs
  | .vStr bs => validBlob bs
  | .vInfMin => false
  | .vInfMax => false
  | .vAutoIncr => false

/-- A timestamp, when present, fits 8 bytes. -/
def validTimestamp : Option Nat → Bool
  | none => true
  | some ts => ts < 18446744073709551616

/-- A valid row: every name is a wire-representable byte string, every
primary-key value is a key value, every cell value is a data value, and
every timestamp fits 8 bytes. -/
def validRow (r : Row) : Bool :=
  r.primaryKey.all (fun c => validBlob c.name && validPKValue c.value) &&
    r.cells.all (fun c =>
      validBlob c.name && validDataValue c.value && validTimestamp c.timestamp)

/-- The user-facing primary-key column `GetRange` builds from a decoded
key column (api.go line 642): name bytes and value, copied over. -/
structure PrimaryKeyColumnM where
  columnName : List Nat
  value : CellValue
deriving DecidableEq, Repr

/-- api.go line 642: `&PrimaryKeyColumn{ColumnName: string(pk.cellName),
Value: pk.cellValue.Value}`. -/
def toPrimaryKeyColumn (c : PKColumn) : PrimaryKeyColumnM :=
  ⟨c.name, c.value⟩

/-- The `NextStartPrimaryKey` loop of `GetRange` (api.go lines 641-645),
run over the primary-key columns decoded from the server's next-start
key: each iteration overwrites `response.NextStartPrimaryKey` with a
fresh empty key (line 643) and then appends the current column
(line 644); `none` models the field left nil. -/
def buildNextStartPrimaryKey (decodedPK : List PKColumn) :
    Option (List PrimaryKeyColumnM) :=
  decodedPK.foldl (fun _ pk => some [toPrimaryKeyColumn pk]) none

/-- The spec's §8 example row: primary key `[("pk", int64 = 1)]`, one
data column `[("col", string = "v", timestamp = 100)]`, names and the
string value by their UTF-8 bytes. -/
def rowExample : Row :=
  ⟨[⟨[112, 107], .vInt 1⟩], [⟨[99, 111, 108], .vStr [118], some 100⟩]⟩

/-- A transport whose first attempt fails with an undecodable body and
whose second attempt succeeds. -/
def garbageThenOk : Nat → Attempt
  | 0 => .failGarbage "not-an-error-pb"
  | _ => .successEmpty

/-! ## Theorems -/

theorem doRequestAux_const_transient (code msg : String)
    (h : isTransientCode code = true) :
    ∀ b idx, doRequestAux (fun _ => Attempt.failDecoded code msg) b idx =
      ⟨some (.server code), b + 1, b + 1⟩ := by
  intro b
  induction b with
  | zero => intro idx; simp [doRequestAux, h]
  | succ n ih => intro idx; simp [doRequestAux, h, ih]

theorem doRequestAux_const_garbage (detail : String) :
    ∀ b idx, doRequestAux (fun _ => Attempt.failGarbage detail) b idx =
      ⟨some (.decodeResp detail), b + 1, 0⟩ := by
  intro b
  induction b with
  | zero => intro idx; simp [doRequestAux]
  | succ n ih => intro idx; simp [doRequestAux, ih]

/-- Claim C2: when every attempt of a call receives a failure response
decoding to a transient error code, a call with retry budget `N`
performs exactly `N + 1` attempts (one initial plus `N` retries) and
then returns a terminal error carrying the decoded error code. -/
theorem claim_retry_budget (N : Nat) (code msg : String)
    (h : isTransientCode code = true) :
    doRequest N (fun _ => Attempt.failDecoded code msg) =
      ⟨some (.server code), N + 1, N + 1⟩ := by
  simpa [doRequest] using doRequestAux_const_transient code msg h N 0

/-- Witness for claim C2 at budget 2 and code `OTSServerBusy`: three
attempts, then the terminal decoded code. -/
theorem claim_retry_budget_witness :
    doRequest 2 (fun _ => Attempt.failDecoded "OTSServerBusy" "busy") =
      ⟨some (.server "OTSServerBusy"), 3, 3⟩ :=
  claim_retry_budget 2 "OTSServerBusy" "busy" (by decide)

/-- Claim C3: a failure whose decoded code is transient triggers a retry
after one fixed sleep — with budget left, the call records the sleep and
continues with the next attempt — while a failure with any other decoded
code ends the call after that single attempt, with no retry and no
sleep. -/
theorem claim_transient_classification (N : Nat) (tr : Nat → Attempt)
    (code msg : String) (h0 : tr 0 = .failDecoded code msg) :
    (isTransientCode code = true → 1 ≤ N →
      doRequest N tr =
        ⟨(doRequestAux tr (N - 1) 1).result,
         (doRequestAux tr (N - 1) 1).attempts + 1,
         (doRequestAux tr (N - 1) 1).sleeps + 1⟩) ∧
    (isTransientCode code = false →
      doRequest N tr = ⟨some (.server code), 1, 0⟩) := by
  constructor
  · intro ht hN
    obtain ⟨b, rfl⟩ : ∃ b, N = b + 1 := ⟨N - 1, by omega⟩
    simp only [doRequest]
    rw [doRequestAux]
    simp [h0, ht]
  · intro ht
    simp only [doRequest]
    rw [doRequestAux]
    simp [h0, ht]

/-- Witness for claim C3: a server-busy code is retried (the constant
busy transport with budget 3 ends after 4 attempts and 4 sleeps), while
a business error code ends after exactly one attempt with no sleep. -/
theorem claim_transient_classification_witness :
    doRequest 3 (fun _ => Attempt.failDecoded "OTSServerBusy" "busy") =
      ⟨some (.server "OTSServerBusy"), 4, 4⟩ ∧
    doRequest 3 (fun _ => Attempt.failDecoded "OTSParameterInvalid" "bad") =
      ⟨some (.server "OTSParameterInvalid"), 1, 0⟩ :=
  ⟨(claim_transient_classification 3 _ "OTSServerBusy" "busy" rfl).1
      (by decide) (by omega),
   (claim_transient_classification 3 _ "OTSParameterInvalid" "bad" rfl).2
      (by decide)⟩

/-- Claim C4 counterexample: at a concrete non-transient decoded failure
(`code = "OTSParameterInvalid"`, `message = "mocked message"`) the call
returns immediately with the terminal server error, whose user-visible
text contains the code but does not contain the message — the returned
error does not carry the message. -/
theorem claim_terminal_error_cex :
    (doRequest 3 (fun _ => Attempt.failDecoded "OTSParameterInvalid"
        "mocked message")).result = some (.server "OTSParameterInvalid") ∧
    containsSubstr "OTSParameterInvalid"
      (reqErrorText (.server "OTSParameterInvalid")) = true ∧
    containsSubstr "mocked message"
      (reqErrorText (.server "OTSParameterInvalid")) = false := by
  refine ⟨rfl, by decide, by decide⟩

/-- Claim C4 as amended: a failure response decoding to a non-transient
code makes the call return immediately (one attempt, no sleep) with a
terminal error whose text is exactly the decoded code — the code is
carried, the message is not part of the error. -/
theorem claim_terminal_error_code_only (N : Nat) (tr : Nat → Attempt)
    (code msg : String) (h0 : tr 0 = .failDecoded code msg)
    (ht : isTransientCode code = false) :
    doRequest N tr = ⟨some (.server code), 1, 0⟩ ∧
    reqErrorText (.server code) = code := by
  refine ⟨?_, rfl⟩
  simp only [doRequest]
  rw [doRequestAux]
  simp [h0, ht]

/-- Witness for the amended claim C4 at a concrete business error. -/
theorem claim_terminal_error_code_only_witness :
    doRequest 5 (fun _ => Attempt.failDecoded "OTSParameterInvalid" "bad") =
      ⟨some (.server "OTSParameterInvalid"), 1, 0⟩ ∧
    reqErrorText (.server "OTSParameterInvalid") = "OTSParameterInvalid" :=
  claim_terminal_error_code_only 5 _ "OTSParameterInvalid" "bad" rfl
    (by decide)

/-- Claim C5: a failure response whose non-empty body cannot be decoded
as an error structure is counted against the retry budget and retried —
with budget left the call continues with the next attempt (no sleep on
this path) — and when every attempt is such a failure, the call ends
after `N + 1` attempts with the decode error, never a success. -/
theorem claim_undecodable_body (N : Nat) (detail : String)
    (tr : Nat → Attempt) (h0 : tr 0 = .failGarbage detail) :
    (1 ≤ N → doRequest N tr =
      ⟨(doRequestAux tr (N - 1) 1).result,
       (doRequestAux tr (N - 1) 1).attempts + 1,
       (doRequestAux tr (N - 1) 1).sleeps⟩) ∧
    doRequest N (fun _ => Attempt.failGarbage detail) =
      ⟨some (.decodeResp detail), N + 1, 0⟩ := by
  constructor
  · intro hN
    obtain ⟨b, rfl⟩ : ∃ b, N = b + 1 := ⟨N - 1, by omega⟩
    simp only [doRequest]
    rw [doRequestAux]
    simp [h0]
  · simpa [doRequest] using doRequestAux_const_garbage detail N 0

/-- Witness for claim C5: an undecodable failure body is retried — with
budget 1 and a transport that then succeeds, the call succeeds on the
second attempt — and the constant undecodable transport at budget 2
ends after 3 attempts with the decode error. -/
theorem claim_undecodable_body_witness :
    doRequest 1 garbageThenOk = ⟨none, 2, 0⟩ ∧
    doRequest 2 (fun _ => Attempt.failGarbage "not-an-error-pb") =
      ⟨some (.decodeResp "not-an-error-pb"), 3, 0⟩ :=
  ⟨(claim_undecodable_body 1 "not-an-error-pb" garbageThenOk rfl).1
      (by omega),
   (claim_undecodable_body 2 "not-an-error-pb" garbageThenOk rfl).2⟩

/-- Claim C1 counterexample: with a transport whose request fails
(transport-level failure), `doRequest` reports an error, yet `ListTable`
returns a fresh empty response together with a nil error — the error is
swallowed, not returned to the caller. -/
theorem claim_listTable_swallows :
    (doRequest 0 (fun _ => Attempt.failEmpty)).result =
      some ReqError.transport ∧
    listTable 0 (fun _ => Attempt.failEmpty) ["t1"] =
      ⟨some ⟨[]⟩, none, 1⟩ :=
  ⟨rfl, rfl⟩

/-- Claim C1 as amended: any error produced by `doRequest` is returned
to the immediate caller by the operations modelled here — DeleteTable,
CreateTable (past validation), PutRow (with a row change), GetRow (with
a nonzero max version) — with the one exception of ListTable, which
consumes the error and returns a fresh empty response with a nil
error. -/
theorem claim_error_propagation (N : Nat) (tr : Nat → Attempt)
    (e : ReqError) (h : (doRequest N tr).result = some e) :
    (∀ names, listTable N tr names =
        ⟨some ⟨[]⟩, none, (doRequest N tr).attempts⟩) ∧
    (∀ tn, (deleteTable N tr tn).err = some (.request e)) ∧
    (∀ maxN maxPK (req : CreateTableRequestM),
        req.tableMeta.tableName.utf8ByteSize ≤ maxN →
        req.tableMeta.schemaEntry.length ≤ maxPK →
        req.tableMeta.schemaEntry.length ≠ 0 →
        (createTable maxN maxPK N tr req).err = some (.request e)) ∧
    (∀ prc, (putRow N tr (some ⟨some prc⟩)).err = some (.request e)) ∧
    (∀ crit : SingleRowQueryCriteriaM, crit.maxVersion ≠ 0 →
        (getRow N tr crit).err = some (.request e)) := by
  refine ⟨?_, ?_, ?_, ?_, ?_⟩
  · intro names; simp [listTable, h]
  · intro tn; simp [deleteTable, h]
  · intro maxN maxPK req h1 h2 h3
    simp only [createTable]
    rw [if_neg (by omega), if_neg (by omega),
      if_neg (by simpa using h3)]
    simp [h]
  · intro prc; simp [putRow, h]
  · intro crit hmv
    by_cases hc : crit.columnsToGet.length > 0 <;>
      simp [getRow, hmv, hc, h]

/-- Witness for the amended claim C1 at a concrete failing transport:
ListTable swallows the error while DeleteTable propagates it. -/
theorem claim_error_propagation_witness :
    listTable 0 (fun _ => Attempt.failEmpty) ["t1"] =
      ⟨some ⟨[]⟩, none, 1⟩ ∧
    (deleteTable 0 (fun _ => Attempt.failEmpty) "t1").err =
      some (.request .transport) :=
  ⟨(claim_error_propagation 0 (fun _ => Attempt.failEmpty) .transport
      rfl).1 ["t1"],
   (claim_error_propagation 0 (fun _ => Attempt.failEmpty) .transport
      rfl).2.1 "t1"⟩

/-- Claim C6: `CreateTable` with a table name longer than the maximum
table-name length, with zero primary-key schema entries, or with more
schema entries than the maximum, returns a validation error with zero
HTTP attempts — no request is ever issued. -/
theorem claim_createTable_validation (maxN maxPK N : Nat)
    (tr : Nat → Attempt) (req : CreateTableRequestM)
    (h : req.tableMeta.tableName.utf8ByteSize > maxN ∨
         req.tableMeta.schemaEntry.length = 0 ∨
         req.tableMeta.schemaEntry.length > maxPK) :
    ∃ v, createTable maxN maxPK N tr req =
      ⟨none, some (.validation v), 0⟩ := by
  by_cases h1 : req.tableMeta.tableName.utf8ByteSize > maxN
  · exact ⟨.tableNameTooLong req.tableMeta.tableName,
      by simp [createTable, h1]⟩
  · by_cases h2 : req.tableMeta.schemaEntry.length > maxPK
    · exact ⟨.primaryKeyTooMuch, by simp [createTable, h1, h2]⟩
    · have h3 : req.tableMeta.schemaEntry.length = 0 := by omega
      exact ⟨.createTableNoPrimaryKey, by simp [createTable, h1, h2, h3]⟩

/-- Witness for claim C6: a 4-byte table name against a maximum of 3
(and an otherwise empty schema) is rejected with no attempt. -/
theorem claim_createTable_validation_witness :
    ∃ v, createTable 3 10 5 (fun _ => Attempt.successEmpty)
        ⟨⟨"abcd", []⟩, 0, 0, 0, 0⟩ = ⟨none, some (.validation v), 0⟩ :=
  claim_createTable_validation 3 10 5 (fun _ => Attempt.successEmpty)
    ⟨⟨"abcd", []⟩, 0, 0, 0, 0⟩ (Or.inl (by decide))

/-- Claim C8: `GetRow` on a criteria whose `MaxVersion` is zero returns
the invalid-input error with zero HTTP attempts, whatever time-range
setting the criteria carries: the `else if` tests the time-range field
of the freshly allocated outgoing request, which is still nil. -/
theorem claim_getRow_maxVersion_zero (N : Nat) (tr : Nat → Attempt)
    (crit : SingleRowQueryCriteriaM) (h : crit.maxVersion = 0) :
    getRow N tr crit = ⟨none, some (.validation .invalidInput), 0⟩ := by
  by_cases hc : crit.columnsToGet.length > 0 <;> simp [getRow, h, hc]

/-- Witness for claim C8: zero max version with a populated criteria
time range is still rejected without any attempt. -/
theorem claim_getRow_maxVersion_zero_witness :
    getRow 4 (fun _ => Attempt.successEmpty)
        ⟨"t", ["c1"], 0, some ⟨some 1, some 2, none⟩⟩ =
      ⟨none, some (.validation .invalidInput), 0⟩ :=
  claim_getRow_maxVersion_zero 4 (fun _ => Attempt.successEmpty)
    ⟨"t", ["c1"], 0, some ⟨some 1, some 2, none⟩⟩ rfl

theorem buildNextStartPrimaryKey_nonempty (cols : List PKColumn)
    (h : cols ≠ []) :
    buildNextStartPrimaryKey cols =
      some [toPrimaryKeyColumn (cols.getLast h)] := by
  induction cols using List.reverseRecOn with
  | nil => cases h rfl
  | append_singleton l a ih =>
      simp [buildNextStartPrimaryKey, List.foldl_append]

/-- Claim C9: whenever the `GetRange` next-start loop produces a non-nil
`NextStartPrimaryKey`, that key holds exactly one column — the last key
column decoded from the server's next-start key — even when several
columns were decoded. -/
theorem claim_getRange_nextStart_last (cols : List PKColumn)
    (out : List PrimaryKeyColumnM)
    (h : buildNextStartPrimaryKey cols = some out) :
    ∃ hne : cols ≠ [],
      out = [toPrimaryKeyColumn (cols.getLast hne)] := by
  rcases cols with _ | ⟨c, cs⟩
  · simp [buildNextStartPrimaryKey] at h
  · refine ⟨by simp, ?_⟩
    have := buildNextStartPrimaryKey_nonempty (c :: cs) (by simp)
    rw [this] at h
    exact (Option.some_injective _ h).symm

/-- Witness for claim C9 on a three-column decoded next-start key: only
the last column survives. -/
theorem claim_getRange_nextStart_last_witness :
    ∃ hne : [⟨[97], CellValue.vInt 1⟩, ⟨[98], CellValue.vInt 2⟩,
        ⟨[99], CellValue.vInt 3⟩] ≠ ([] : List PKColumn),
      [toPrimaryKeyColumn ⟨[99], CellValue.vInt 3⟩] =
        [toPrimaryKeyColumn (([⟨[97], CellValue.vInt 1⟩,
          ⟨[98], CellValue.vInt 2⟩, ⟨[99], CellValue.vInt 3⟩] :
            List PKColumn).getLast hne)] :=
  claim_getRange_nextStart_last
    [⟨[97], .vInt 1⟩, ⟨[98], .vInt 2⟩, ⟨[99], .vInt 3⟩]
    [toPrimaryKeyColumn ⟨[99], .vInt 3⟩] rfl

/-- Claim C10: `PutRow` with a nil request, or with a request whose
`PutRowChange` is nil, returns a nil response together with a nil error
and issues no HTTP attempt. -/
theorem claim_putRow_nil (N : Nat) (tr : Nat → Attempt)
    (request : Option PutRowRequestM)
    (h : request = none ∨ request = some ⟨none⟩) :
    putRow N tr request = ⟨none, none, 0⟩ := by
  rcases h with rfl | rfl <;> rfl

/-- Witness for claim C10 with a present request whose row change is
nil. -/
theorem claim_putRow_nil_witness :
    putRow 7 (fun _ => Attempt.successEmpty) (some ⟨none⟩) =
      ⟨none, none, 0⟩ :=
  claim_putRow_nil 7 (fun _ => Attempt.successEmpty) (some ⟨none⟩)
    (Or.inr rfl)

/-! ### Codec round-trip -/

theorem read8_enc64 (n : Nat) (rest : List Nat)
    (h : n < 18446744073709551616) :
    read8 (enc64 n ++ rest) = some (n, enc64 n, rest) := by
  have hd : dec64 (n % 256) (n / 256 % 256) (n / 65536 % 256)
      (n / 16777216 % 256) (n / 4294967296 % 256)
      (n / 1099511627776 % 256) (n / 281474976710656 % 256)
      (n / 72057594037927936 % 256) = n := by
    simp only [dec64]; omega
  simp only [enc64, List.cons_append, List.nil_append, read8, hd]

theorem readLP_enc (bs rest : List Nat) (h : bs.length < 4294967296) :
    readLP (encLP bs ++ rest) = some (bs, encLP bs, rest) := by
  have hd : dec32 (bs.length % 256) (bs.length / 256 % 256)
      (bs.length / 65536 % 256) (bs.length / 16777216 % 256) =
        bs.length := by
    simp only [dec32]; omega
  simp only [encLP, enc32, List.cons_append, List.nil_append,
    List.append_assoc, readLP, hd]
  rw [if_pos (by simp)]
  simp

theorem tagOfValue_lt (v : CellValue) : tagOfValue v < 8 := by
  cases v <;> simp [tagOfValue]

theorem readValuePayload_enc (v : CellValue) (rest : List Nat)
    (h : validPKValue v = true ∨ validDataValue v = true) :
    readValuePayload (tagOfValue v) (valuePayload v ++ rest) =
      some (v, valuePayload v, rest) := by
  cases v with
  | vInt n =>
    have hn : n < 18446744073709551616 := by
      rcases h with h | h
      · simpa [validPKValue] using h
      · simpa [validDataValue] using h
    simp [tagOfValue, valuePayload, readValuePayload, read8_enc64 n rest hn]
  | vFloat bits =>
    have hn : bits < 18446744073709551616 := by
      rcases h with h | h
      · simp [validPKValue] at h
      · simpa [validDataValue] using h
    simp [tagOfValue, valuePayload, readValuePayload,
      read8_enc64 bits rest hn]
  | vBool b =>
    cases b <;> simp [tagOfValue, valuePayload, readValuePayload]
  | vBytes bs =>
    have hb : bs.length < 4294967296 := by
      rcases h with h | h
      · simp only [validPKValue, validBlob, Bool.and_eq_true,
          decide_eq_true_eq] at h
        exact h.1
      · simp only [validDataValue, validBlob, Bool.and_eq_true,
          decide_eq_true_eq] at h
        exact h.1
    simp [tagOfValue, valuePayload, readValuePayload, readLP_enc bs rest hb]
  | vStr bs =>
    have hb : bs.length < 4294967296 := by
      rcases h with h | h
      · simp only [validPKValue, validBlob, Bool.and_eq_true,
          decide_eq_true_eq] at h
        exact h.1
      · simp only [validDataValue, validBlob, Bool.and_eq_true,
          decide_eq_true_eq] at h
        exact h.1
    simp [tagOfValue, valuePayload, readValuePayload, readLP_enc bs rest hb]
  | vInfMin => simp [tagOfValue, valuePayload, readValuePayload]
  | vInfMax => simp [tagOfValue, valuePayload, readValuePayload]
  | vAutoIncr => simp [tagOfValue, valuePayload, readValuePayload]

theorem readTimestamp_enc (ts : Option Nat) (rest : List Nat)
    (h : validTimestamp ts = true) :
    readTimestamp (encTimestamp ts ++ rest) =
      some (ts, encTimestamp ts, rest) := by
  cases ts with
  | none => simp [encTimestamp, readTimestamp]
  | some t =>
    have ht : t < 18446744073709551616 := by
      simpa [validTimestamp] using h
    simp [encTimestamp, readTimestamp, read8_enc64 t rest ht]

theorem length_lt_encPKSection (cols : List PKColumn) :
    cols.length < (encPKSection cols).length := by
  induction cols with
  | nil => simp [encPKSection]
  | cons c cs ih =>
    have h1 : (encPKColumn c).length =
        (encLP c.name ++ valuePayload c.value).length + 1 := by
      simp [encPKColumn]
    simp only [encPKSection, List.map_cons, List.flatten_cons,
      List.length_append, List.length_cons] at *
    omega

theorem length_lt_encCellSection (cells : List DataCell) :
    cells.length < (encCellSection cells).length := by
  induction cells with
  | nil => simp [encCellSection]
  | cons c cs ih =>
    have h1 : 1 ≤ (encDataCell c).length := by simp [encDataCell]
    simp only [encCellSection, List.map_cons, List.flatten_cons,
      List.length_append, List.length_cons] at *
    omega

theorem readPKSection_enc (cols : List PKColumn) :
    ∀ (fuel : Nat) (rest : List Nat), cols.length < fuel →
    (∀ c ∈ cols, validBlob c.name = true ∧ validPKValue c.value = true) →
    readPKSection fuel (encPKSection cols ++ rest) =
      some (cols, encPKSection cols, rest) := by
  induction cols with
  | nil =>
    intro fuel rest hf _
    obtain ⟨f, rfl⟩ : ∃ f, fuel = f + 1 := ⟨fuel - 1, by omega⟩
    simp [encPKSection, readPKSection, pkSectionEnd]
  | cons c cs ih =>
    intro fuel rest hf hv
    obtain ⟨f, rfl⟩ : ∃ f, fuel = f + 1 := ⟨fuel - 1, by omega⟩
    have hname : validBlob c.name = true := (hv c (by simp)).1
    have hval : validPKValue c.value = true := (hv c (by simp)).2
    have hlen : c.name.length < 4294967296 := by
      simp only [validBlob, Bool.and_eq_true, decide_eq_true_eq] at hname
      exact hname.1
    have htag : ¬ tagOfValue c.value = pkSectionEnd := by
      have := tagOfValue_lt c.value
      simp only [pkSectionEnd]
      omega
    have hshape : encPKSection (c :: cs) ++ rest =
        tagOfValue c.value ::
          (encLP c.name ++
            (valuePayload c.value ++ (encPKSection cs ++ rest))) := by
      simp [encPKSection, encPKColumn, List.append_assoc]
    rw [hshape]
    have hcs : readPKSection f (encPKSection cs ++ rest) =
        some (cs, encPKSection cs, rest) := by
      refine ih f rest (by simp at hf; omega) ?_
      intro x hx
      exact hv x (by simp [hx])
    simp only [readPKSection, if_neg htag,
      readLP_enc c.name _ hlen,
      readValuePayload_enc c.value _ (Or.inl hval), hcs]
    simp [encPKSection, encPKColumn, List.append_assoc]

theorem readCellSection_enc (cells : List DataCell) :
    ∀ (fuel : Nat) (rest : List Nat), cells.length < fuel →
    (∀ c ∈ cells, validBlob c.name = true ∧ validDataValue c.value = true ∧
      validTimestamp c.timestamp = true) →
    readCellSection fuel (encCellSection cells ++ rest) =
      some (cells, encCellSection cells, rest) := by
  induction cells with
  | nil =>
    intro fuel rest hf _
    obtain ⟨f, rfl⟩ : ∃ f, fuel = f + 1 := ⟨fuel - 1, by omega⟩
    simp [encCellSection, readCellSection, cellSectionEnd]
  | cons c cs ih =>
    intro fuel rest hf hv
    obtain ⟨f, rfl⟩ : ∃ f, fuel = f + 1 := ⟨fuel - 1, by omega⟩
    have hname : validBlob c.name = true := (hv c (by simp)).1
    have hval : validDataValue c.value = true := (hv c (by simp)).2.1
    have hts : validTimestamp c.timestamp = true := (hv c (by simp)).2.2
    have hlen : c.name.length < 4294967296 := by
      simp only [validBlob, Bool.and_eq_true, decide_eq_true_eq] at hname
      exact hname.1
    have hshape : encCellSection (c :: cs) ++ rest =
        cellEntryTag ::
          (encLP c.name ++
            (tagOfValue c.value ::
              (valuePayload c.value ++
                (encTimestamp c.timestamp ++
                  (encCellSection cs ++ rest))))) := by
      simp [encCellSection, encDataCell, List.append_assoc]
    rw [hshape]
    have hcs : readCellSection f (encCellSection cs ++ rest) =
        some (cs, encCellSection cs, rest) := by
      refine ih f rest (by simp at hf; omega) ?_
      intro x hx
      exact hv x (by simp [hx])
    simp only [readCellSection]
    rw [if_neg (by decide), if_pos trivial]
    simp only [readLP_enc c.name _ hlen,
      readValuePayload_enc c.value _ (Or.inr hval),
      readTimestamp_enc c.timestamp _ hts, hcs]
    simp [encCellSection, encDataCell, List.append_assoc]

theorem readRow_enc (r : Row) (rest : List Nat) (h : validRow r = true) :
    readRow (encodeRow r ++ rest) = some (r, rest) := by
  obtain ⟨pk, cells⟩ := r
  simp only [validRow, Bool.and_eq_true, List.all_eq_true] at h
  obtain ⟨hpk, hcells⟩ := h
  have hv1 : ∀ c ∈ pk, validBlob c.name = true ∧
      validPKValue c.value = true := by
    intro c hc
    have := hpk c hc
    simpa [Bool.and_eq_true] using this
  have hv2 : ∀ c ∈ cells, validBlob c.name = true ∧
      validDataValue c.value = true ∧ validTimestamp c.timestamp = true := by
    intro c hc
    have := hcells c hc
    simp only [Bool.and_eq_true] at this
    exact ⟨this.1.1, this.1.2, this.2⟩
  have hshape : encodeRow ⟨pk, cells⟩ ++ rest =
      117 :: 0 :: 0 :: 0 ::
        (encPKSection pk ++
          (encCellSection cells ++
            (checksum (encPKSection pk ++ encCellSection cells) :: rest))) := by
    simp [encodeRow, headerMarker, rowBody, List.append_assoc]
  rw [hshape]
  have hfu1 : pk.length <
      (encPKSection pk ++
        (encCellSection cells ++
          (checksum (encPKSection pk ++ encCellSection cells) ::
            rest))).length + 1 := by
    have := length_lt_encPKSection pk
    simp only [List.length_append]
    omega
  have hfu2 : cells.length <
      (encCellSection cells ++
        (checksum (encPKSection pk ++ encCellSection cells) ::
          rest)).length + 1 := by
    have := length_lt_encCellSection cells
    simp only [List.length_append]
    omega
  simp only [readRow, headerMarker, reduceIte,
    readPKSection_enc pk _ _ hfu1 hv1,
    readCellSection_enc cells _ _ hfu2 hv2]

theorem decodeRowsAux_single (r : Row) (h : validRow r = true) :
    ∀ fuel, 1 ≤ fuel → decodeRowsAux fuel (encodeRow r) = some [r] := by
  intro fuel hf
  obtain ⟨f, rfl⟩ : ∃ f, fuel = f + 1 := ⟨fuel - 1, by omega⟩
  have hrr : readRow (encodeRow r) = some (r, []) := by
    have := readRow_enc r [] h
    simpa using this
  have hne : encodeRow r =
      117 :: (0 :: 0 :: 0 :: (rowBody r ++ [checksum (rowBody r)])) := by
    simp [encodeRow, headerMarker]
  rw [hne] at hrr ⊢
  simp [decodeRowsAux, hrr]

/-- Claim C7: for every valid row, decoding the buffer produced by
encoding it yields exactly the one-element sequence holding that row. -/
theorem claim_row_roundtrip (r : Row) (h : validRow r = true) :
    decodeRows (encodeRow r) = some [r] := by
  have hlen : 1 ≤ (encodeRow r).length := by
    simp [encodeRow, headerMarker]
  exact decodeRowsAux_single r h _ hlen

/-- Witness for claim C7 at the spec's §8 example row (`pk = 1`,
`col = "v"` at timestamp 100). -/
theorem claim_row_roundtrip_witness :
    validRow rowExample = true ∧
    decodeRows (encodeRow rowExample) = some [rowExample] :=
  ⟨by decide, claim_row_roundtrip rowExample (by decide)⟩

end Tablestore
